import Mathlib

/-!
# Verification of the plex-based lexical analyzer

Shallow embedding of the lexer in `src/lib.rs` (namespace `Lex`) and its
near-duplicate standalone program `src/main.rs` (namespace `LexMain`).

Modelling conventions:
* Strings are lists of characters (`Str := List Char`).  All offsets and
  lengths are counted in characters; the inputs appearing in the claims are
  ASCII, where character counts and Rust's byte counts coincide.
* Character classes from the regexes are predicates on the character's code
  point (`Char.toNat`); the code points are spelled out in comments.
* Each regex of the `lexer!` macro is embedded as a function returning the
  length of its longest match on a prefix of the input (`none` when it does
  not match).  The `plex` crate compiles all rules into one DFA performing
  maximal munch: the longest match over all rules wins and ties go to the
  rule declared first; `takeToken` implements exactly that via `pickBest`.
* Rust panics (`panic!`, `.unwrap()`) are embedded as `Except.error` values
  carrying the same diagnostic payload, so the functions are total:
  `numericParsePanic` is the `tok.parse().unwrap()` panic,
  `unknownOperatorPanic` the `panic!("Unknown operator...")`,
  `missingSeparator` and `unrecognizedToken` the two panics in
  `extract_tokens`.
* Rust `f64` decimal payloads are embedded as exact rationals read from the
  matched literal (floating point itself is not shallowly embeddable;
  `f64::from_str` never fails on the shape matched by the decimal rule, so
  the decimal action is total).
* The scanning loop of `extract_tokens` is embedded with explicit fuel;
  `input.length + 1` units of fuel always suffice because every rule
  consumes at least one character (proved below).
-/

/-- Characters. -/
abbrev Str := List Char

/-- The whitespace rule's character class from the regex `[ \n\t]+`:
space (32), newline (10), tab (9). -/
def isWsChar (c : Char) : Bool :=
  decide (c.toNat = 32 ∨ c.toNat = 10 ∨ c.toNat = 9)

/-- The digit class `[0-9]`: code points 48 to 57. -/
def isDigitChar (c : Char) : Bool :=
  decide (48 ≤ c.toNat ∧ c.toNat ≤ 57)

/-- The identifier start class `[a-zA-Z_]`:
lower case letters (97-122), upper case letters (65-90), underscore (95). -/
def isIdentStart (c : Char) : Bool :=
  decide ((97 ≤ c.toNat ∧ c.toNat ≤ 122) ∨ (65 ≤ c.toNat ∧ c.toNat ≤ 90) ∨ c.toNat = 95)

/-- The identifier continuation class `[a-zA-Z0-9_]`. -/
def isIdentChar (c : Char) : Bool :=
  isIdentStart c || isDigitChar c

/-- Unicode `White_Space` code points, the set trimmed by Rust's
`str::trim` (via `char::is_whitespace`): U+0009-U+000D, U+0020, U+0085,
U+00A0, U+1680, U+2000-U+200A, U+2028, U+2029, U+202F, U+205F, U+3000. -/
def isTrimWs (c : Char) : Bool :=
  decide ((9 ≤ c.toNat ∧ c.toNat ≤ 13) ∨ c.toNat = 32 ∨ c.toNat = 133 ∨
    c.toNat = 160 ∨ c.toNat = 5760 ∨ (8192 ≤ c.toNat ∧ c.toNat ≤ 8202) ∨
    c.toNat = 8232 ∨ c.toNat = 8233 ∨ c.toNat = 8239 ∨ c.toNat = 8287 ∨
    c.toNat = 12288)

/-- ASCII whitespace in the sense of Rust's `char::is_ascii_whitespace`:
space (32), tab (9), newline (10), form feed (12), carriage return (13).
This definition follows the spec's words ("trimming ASCII whitespace") and
is used only to compare the spec's trimming condition with the code's
actual `str::trim`, which trims the full Unicode `White_Space` set. -/
def isAsciiWs (c : Char) : Bool :=
  decide (c.toNat = 32 ∨ c.toNat = 9 ∨ c.toNat = 10 ∨ c.toNat = 12 ∨ c.toNat = 13)

/-- Length of the longest prefix of `s` whose characters all satisfy `p`
(the greedy `p*` match used to embed the `+`/`*` pieces of the regexes). -/
def takeWhileLen (p : Char → Bool) : Str → Nat
  | [] => 0
  | c :: r => if p c then takeWhileLen p r + 1 else 0

/-- Numeric value of a digit string (most significant digit first). -/
def digitsToNat : Str → Nat :=
  List.foldl (fun a c => 10 * a + (c.toNat - 48)) 0

/-- Splits an optional leading minus sign (code 45) off a literal,
embedding the `-?` prefix of the numeric regexes.  Returns
(sign present, rest). -/
def splitSign : Str → Bool × Str
  | c :: r => if c.toNat = 45 then (true, r) else (false, c :: r)
  | [] => (false, [])

/-- Rust's `str::parse::<i64>` on a string matched by `-?[0-9]+`:
returns the value when it fits in `i64` (range `-2^63 .. 2^63 - 1`),
`none` on overflow (in Rust the subsequent `.unwrap()` then panics). -/
def parseI64 (t : Str) : Option Int :=
  let (neg, digits) := splitSign t
  let m := digitsToNat digits
  if neg then
    if m ≤ 2 ^ 63 then some (-(m : Int)) else none
  else
    if m ≤ 2 ^ 63 - 1 then some (m : Int) else none

/-- The exact rational value of a literal matched by `-?[0-9]+\.[0-9]+`
(embeds the `f64` payload; see the header comment): for integer part `ip`,
fractional part `fp` of length `k` and optional sign, the value is
`± (ip * 10^k + fp) / 10^k`. -/
def parseDecimalRat (t : Str) : Rat :=
  let (neg, rest) := splitSign t
  let ip := rest.takeWhile isDigitChar
  let fp := (rest.dropWhile isDigitChar).drop 1
  let num : Int := digitsToNat ip * 10 ^ fp.length + digitsToNat fp
  mkRat (if neg then -num else num) (10 ^ fp.length)

/-- Longest match of the whitespace rule `[ \n\t]+`. -/
def matchWhitespace (s : Str) : Option Nat :=
  let n := takeWhileLen isWsChar s
  if n = 0 then none else some n

/-- Longest match of the decimal rule `-?[0-9]+\.[0-9]+`:
optional sign, one or more digits, a dot (code 46), one or more digits. -/
def matchDec (s : Str) : Option Nat :=
  let (neg, rest) := splitSign s
  let sgn := if neg then 1 else 0
  let n1 := takeWhileLen isDigitChar rest
  if n1 = 0 then none else
    match rest.drop n1 with
    | c :: r2 =>
      if c.toNat = 46 then
        let n2 := takeWhileLen isDigitChar r2
        if n2 = 0 then none else some (sgn + n1 + 1 + n2)
      else none
    | [] => none

/-- Longest match of the integer rule `-?[0-9]+`. -/
def matchInt (s : Str) : Option Nat :=
  let (neg, rest) := splitSign s
  let sgn := if neg then 1 else 0
  let n1 := takeWhileLen isDigitChar rest
  if n1 = 0 then none else some (sgn + n1)

namespace Lex

/-- The two-character alternatives of the library operator regex
`\+=|-=|\*=|/=|==|!=|<=|>=|\&\&|\|\|`: `X=` with `X` one of
`+`(43) `-`(45) `*`(42) `/`(47) `=`(61) `!`(33) `<`(60) `>`(62),
plus `&&` (38 38) and `||` (124 124); `=` is code 61. -/
def isTwoCharOp (a b : Char) : Bool :=
  (decide (b.toNat = 61) &&
    decide (a.toNat = 43 ∨ a.toNat = 45 ∨ a.toNat = 42 ∨ a.toNat = 47 ∨
      a.toNat = 61 ∨ a.toNat = 33 ∨ a.toNat = 60 ∨ a.toNat = 62)) ||
  (decide (a.toNat = 38 ∧ b.toNat = 38)) ||
  (decide (a.toNat = 124 ∧ b.toNat = 124))

/-- The single-character class `[+\\\-*\/%<>!=]` of the library operator
regex: `+`(43) `\`(92) `-`(45) `*`(42) `/`(47) `%`(37) `<`(60) `>`(62)
`!`(33) `=`(61). -/
def isOpChar (c : Char) : Bool :=
  decide (c.toNat = 43 ∨ c.toNat = 92 ∨ c.toNat = 45 ∨ c.toNat = 42 ∨
    c.toNat = 47 ∨ c.toNat = 37 ∨ c.toNat = 60 ∨ c.toNat = 62 ∨
    c.toNat = 33 ∨ c.toNat = 61)

/-- Longest match of the library operator rule: a two-character spelling
when the first two characters form one, else a single class character. -/
def matchOp (s : Str) : Option Nat :=
  match s with
  | a :: b :: _ =>
    if isTwoCharOp a b then some 2
    else if isOpChar a then some 1
    else none
  | [a] => if isOpChar a then some 1 else none
  | [] => none

/-- Longest match of the identifier rule `[a-zA-Z_][a-zA-Z0-9_]*`. -/
def matchIdent (s : Str) : Option Nat :=
  match s with
  | c :: r => if isIdentStart c then some (takeWhileLen isIdentChar r + 1) else none
  | [] => none

/-- The `Keyword` enum of `lib.rs`. -/
inductive Keyword
  | While
  | For
  | Fn
  | If
  | Else
  deriving DecidableEq

/-- The `Operator` enum of `lib.rs`. -/
inductive Operator
  | Plus
  | Minus
  | Multiply
  | Divide
  | PlusEqual
  | MinusEqual
  | MultiplyEqual
  | DivideEqual
  | Modulo
  | Equal
  | EqualEqual
  | NotEqual
  | Less
  | LessEqual
  | Greater
  | GreaterEqual
  | And
  | Or
  | Not
  deriving DecidableEq

/-- The `Token` enum of `lib.rs`. -/
inductive Token
  | Integer (n : Int)
  | Whitespace
  | Identifier (s : Str)
  | Decimal (q : Rat)
  | Keyword (k : Keyword)
  | Operator (o : Operator)
  deriving DecidableEq

/-- `matches!(tok, Token::Whitespace)`. -/
def Token.isWhitespace : Token → Bool
  | .Whitespace => true
  | _ => false

/-- The panics of the library lexer, embedded as error values
(see the header comment). -/
inductive LexError
  | missingSeparator (previous current : Token)
  | unrecognizedToken (byteOffset : Nat)
  | numericParsePanic (literal : Str)
  | unknownOperatorPanic (literal : Str)
  deriving DecidableEq

/-- The `KEYWORDS` map of `lib.rs`. -/
def KEYWORDS : List (Str × Keyword) :=
  [("while".data, .While), ("for".data, .For), ("fn".data, .Fn),
   ("if".data, .If), ("else".data, .Else)]

/-- The `OPERATORS` map of `lib.rs`. -/
def OPERATORS : List (Str × Operator) :=
  [("+".data, .Plus), ("+=".data, .PlusEqual), ("-".data, .Minus),
   ("-=".data, .MinusEqual), ("*".data, .Multiply), ("*=".data, .MultiplyEqual),
   ("/".data, .Divide), ("/=".data, .DivideEqual), ("%".data, .Modulo),
   ("=".data, .Equal), ("==".data, .EqualEqual), ("!=".data, .NotEqual),
   ("<".data, .Less), ("<=".data, .LessEqual), (">".data, .Greater),
   (">=".data, .GreaterEqual), ("&&".data, .And), ("||".data, .Or),
   ("!".data, .Not)]

/-- `parse_keyword`: exact-match lookup in `KEYWORDS`. -/
def parse_keyword (s : Str) : Option Keyword :=
  KEYWORDS.lookup s

/-- `parse_operator`: exact-match lookup in `OPERATORS`. -/
def parse_operator (s : Str) : Option Operator :=
  OPERATORS.lookup s

/-- Identifies the five rules of the `lexer!` macro, in declaration
order. -/
inductive RuleId
  | whitespace
  | decimal
  | integer
  | operator
  | identifier
  deriving DecidableEq

/-- Maximal munch over the rule table: among the rules that match, pick
the one with the longest match; on equal lengths the rule declared
earlier (first in the list) wins, as in the DFA generated by `plex`. -/
def pickBest : List (Option Nat × RuleId) → Option (Nat × RuleId)
  | [] => none
  | (none, _) :: rest => pickBest rest
  | (some n, r) :: rest =>
    match pickBest rest with
    | none => some (n, r)
    | some (m, r') => if n < m then some (m, r') else some (n, r)

/-- One step of the generated lexer `take_token`: the rule that fires on
a prefix of `s` and the length it consumes, or `none` when no rule
matches at the current position. -/
def take_token (s : Str) : Option (Nat × RuleId) :=
  pickBest
    [(matchWhitespace s, RuleId.whitespace),
     (matchDec s, RuleId.decimal),
     (matchInt s, RuleId.integer),
     (matchOp s, RuleId.operator),
     (matchIdent s, RuleId.identifier)]

/-- The action of each rule of the `lexer!` macro, applied to the matched
substring.  The numeric and operator actions can panic in the source
(`unwrap`, `panic!`); those panics are the `error` results. -/
def applyRule (r : RuleId) (t : Str) : Except LexError Token :=
  match r with
  | .whitespace => .ok .Whitespace
  | .decimal => .ok (.Decimal (parseDecimalRat t))
  | .integer =>
    match parseI64 t with
    | some n => .ok (.Integer n)
    | none => .error (.numericParsePanic t)
  | .operator =>
    match parse_operator t with
    | some op => .ok (.Operator op)
    | none => .error (.unknownOperatorPanic t)
  | .identifier =>
    match parse_keyword t with
    | some k => .ok (.Keyword k)
    | none => .ok (.Identifier t)

/-- The end-of-loop check of `extract_tokens`:
`if !remaining.trim().is_empty() { panic!("Unrecognized token ...") }`.
`remaining.trim().is_empty()` holds exactly when every character of
`remaining` is trim-whitespace.  The reported position is
`input.len() - remaining.len()`. -/
def finish (input remaining : Str) (tokens : List Token) : Except LexError (List Token) :=
  if remaining.all isTrimWs then .ok tokens
  else .error (.unrecognizedToken (input.length - remaining.length))

/-- The scanning loop of `extract_tokens`, with explicit fuel.  Each
iteration takes one token from `remaining`; the action runs inside
`take_token` (so its panics fire before the separator check), then the
separator check compares the new token against `tokens.last()`. -/
def extract_tokens_fuel : Nat → Str → Str → List Token → Except LexError (List Token)
  | 0, input, remaining, tokens => finish input remaining tokens
  | fuel + 1, input, remaining, tokens =>
    match take_token remaining with
    | none => finish input remaining tokens
    | some (n, rid) =>
      match applyRule rid (remaining.take n) with
      | .error e => .error e
      | .ok token =>
        match tokens.getLast? with
        | some prev =>
          if !prev.isWhitespace && !token.isWhitespace then
            .error (.missingSeparator prev token)
          else
            extract_tokens_fuel fuel input (remaining.drop n) (tokens ++ [token])
        | none =>
          extract_tokens_fuel fuel input (remaining.drop n) (tokens ++ [token])

/-- `extract_tokens` of `lib.rs`.  `input.length + 1` units of fuel always
suffice: every rule consumes at least one character per iteration
(`take_token_pos` below), so the loop runs at most `input.length` times. -/
def extract_tokens (input : Str) : Except LexError (List Token) :=
  extract_tokens_fuel (input.length + 1) input input []

/-- The substrings matched by the `take_token` loop, in order, for a given
number of iterations (instrumentation of the loop in `extract_tokens`:
quantifying over the iteration count covers every point at which the loop
can stop, including the validator's early aborts). -/
def scanPieces : Nat → Str → List Str
  | 0, _ => []
  | fuel + 1, s =>
    match take_token s with
    | none => []
    | some (n, _) => s.take n :: scanPieces fuel (s.drop n)

/-- The unconsumed suffix after a given number of iterations of the
`take_token` loop. -/
def scanRemaining : Nat → Str → Str
  | 0, s => s
  | fuel + 1, s =>
    match take_token s with
    | none => s
    | some (n, _) => scanRemaining fuel (s.drop n)

end Lex

namespace LexMain

/-- The two-character alternatives of the standalone program's operator
regex `==|!=|<=|>=|\&\&|\|\|` (`main.rs` has no compound-assignment
spellings): `X=` with `X` one of `=`(61) `!`(33) `<`(60) `>`(62), plus
`&&` and `||`. -/
def isTwoCharOp (a b : Char) : Bool :=
  (decide (b.toNat = 61) &&
    decide (a.toNat = 61 ∨ a.toNat = 33 ∨ a.toNat = 60 ∨ a.toNat = 62)) ||
  (decide (a.toNat = 38 ∧ b.toNat = 38)) ||
  (decide (a.toNat = 124 ∧ b.toNat = 124))

/-- The single-character class `[+\\\-*\/%<>!]` of the standalone
program's operator regex: as the library one but without `=`(61). -/
def isOpChar (c : Char) : Bool :=
  decide (c.toNat = 43 ∨ c.toNat = 92 ∨ c.toNat = 45 ∨ c.toNat = 42 ∨
    c.toNat = 47 ∨ c.toNat = 37 ∨ c.toNat = 60 ∨ c.toNat = 62 ∨
    c.toNat = 33)

/-- Longest match of the standalone program's operator rule. -/
def matchOp (s : Str) : Option Nat :=
  match s with
  | a :: b :: _ =>
    if isTwoCharOp a b then some 2
    else if isOpChar a then some 1
    else none
  | [a] => if isOpChar a then some 1 else none
  | [] => none

/-- Longest match of the identifier rule `[a-zA-Z_][a-zA-Z0-9_]*`
(identical to the library's). -/
def matchIdent (s : Str) : Option Nat :=
  match s with
  | c :: r => if isIdentStart c then some (takeWhileLen isIdentChar r + 1) else none
  | [] => none

/-- The `Keyword` enum of `main.rs` (no `Else`). -/
inductive Keyword
  | While
  | For
  | Fn
  | If
  deriving DecidableEq

/-- The `Operator` enum of `main.rs` (no compound assignment, no
`Equal`). -/
inductive Operator
  | Plus
  | Minus
  | Multiply
  | Divide
  | Modulo
  | EqualEqual
  | NotEqual
  | Less
  | LessEqual
  | Greater
  | GreaterEqual
  | And
  | Or
  | Not
  deriving DecidableEq

/-- The `Token` enum of `main.rs`. -/
inductive Token
  | Integer (n : Int)
  | Whitespace
  | Identifier (s : Str)
  | Decimal (q : Rat)
  | Keyword (k : Keyword)
  | Operator (o : Operator)
  deriving DecidableEq

/-- `matches!(tok, Token::Whitespace)`. -/
def Token.isWhitespace : Token → Bool
  | .Whitespace => true
  | _ => false

/-- The panics of the standalone program's lexer, embedded as error
values.  There is no unrecognized-token panic: `main.rs` performs no
end-of-input check. -/
inductive LexError
  | missingSeparator (previous current : Token)
  | numericParsePanic (literal : Str)
  | unknownOperatorPanic (literal : Str)
  deriving DecidableEq

/-- The `KEYWORDS` map of `main.rs`. -/
def KEYWORDS : List (Str × Keyword) :=
  [("while".data, .While), ("for".data, .For), ("fn".data, .Fn),
   ("if".data, .If)]

/-- The `OPERATORS` map of `main.rs`. -/
def OPERATORS : List (Str × Operator) :=
  [("+".data, .Plus), ("-".data, .Minus), ("*".data, .Multiply),
   ("/".data, .Divide), ("%".data, .Modulo), ("==".data, .EqualEqual),
   ("!=".data, .NotEqual), ("<".data, .Less), ("<=".data, .LessEqual),
   (">".data, .Greater), (">=".data, .GreaterEqual), ("&&".data, .And),
   ("||".data, .Or), ("!".data, .Not)]

/-- `parse_keyword` of `main.rs`. -/
def parse_keyword (s : Str) : Option Keyword :=
  KEYWORDS.lookup s

/-- `parse_operator` of `main.rs`. -/
def parse_operator (s : Str) : Option Operator :=
  OPERATORS.lookup s

/-- The five rules of the `lexer!` macro in `main.rs`, in declaration
order. -/
inductive RuleId
  | whitespace
  | decimal
  | integer
  | operator
  | identifier
  deriving DecidableEq

/-- Maximal munch over the rule table of `main.rs` (same policy as the
library's). -/
def pickBest : List (Option Nat × RuleId) → Option (Nat × RuleId)
  | [] => none
  | (none, _) :: rest => pickBest rest
  | (some n, r) :: rest =>
    match pickBest rest with
    | none => some (n, r)
    | some (m, r') => if n < m then some (m, r') else some (n, r)

/-- One step of the generated lexer `take_token` of `main.rs`. -/
def take_token (s : Str) : Option (Nat × RuleId) :=
  pickBest
    [(matchWhitespace s, RuleId.whitespace),
     (matchDec s, RuleId.decimal),
     (matchInt s, RuleId.integer),
     (matchOp s, RuleId.operator),
     (matchIdent s, RuleId.identifier)]

/-- The action of each rule of the `lexer!` macro in `main.rs`. -/
def applyRule (r : RuleId) (t : Str) : Except LexError Token :=
  match r with
  | .whitespace => .ok .Whitespace
  | .decimal => .ok (.Decimal (parseDecimalRat t))
  | .integer =>
    match parseI64 t with
    | some n => .ok (.Integer n)
    | none => .error (.numericParsePanic t)
  | .operator =>
    match parse_operator t with
    | some op => .ok (.Operator op)
    | none => .error (.unknownOperatorPanic t)
  | .identifier =>
    match parse_keyword t with
    | some k => .ok (.Keyword k)
    | none => .ok (.Identifier t)

/-- The scanning loop of `extract_tokens` in `main.rs`, with explicit
fuel.  Unlike the library's, when the loop stops it returns the tokens
collected so far unconditionally: there is no check on the unconsumed
suffix. -/
def extract_tokens_fuel : Nat → Str → List Token → Except LexError (List Token)
  | 0, _, tokens => .ok tokens
  | fuel + 1, remaining, tokens =>
    match take_token remaining with
    | none => .ok tokens
    | some (n, rid) =>
      match applyRule rid (remaining.take n) with
      | .error e => .error e
      | .ok token =>
        match tokens.getLast? with
        | some prev =>
          if !prev.isWhitespace && !token.isWhitespace then
            .error (.missingSeparator prev token)
          else
            extract_tokens_fuel fuel (remaining.drop n) (tokens ++ [token])
        | none =>
          extract_tokens_fuel fuel (remaining.drop n) (tokens ++ [token])

/-- `extract_tokens` of `main.rs`. -/
def extract_tokens (input : Str) : Except LexError (List Token) :=
  extract_tokens_fuel (input.length + 1) input []

end LexMain

deriving instance DecidableEq for Except

/-! ## Basic lemmas about the greedy run and the rule table -/

theorem takeWhileLen_le (p : Char → Bool) : ∀ s : Str, takeWhileLen p s ≤ s.length := by
  intro s
  induction s with
  | nil => simp [takeWhileLen]
  | cons c r ih =>
    simp only [takeWhileLen, List.length_cons]
    split <;> omega

theorem takeWhileLen_all (p : Char → Bool) :
    ∀ s : Str, (∀ c ∈ s, p c = true) → takeWhileLen p s = s.length := by
  intro s
  induction s with
  | nil => simp [takeWhileLen]
  | cons c r ih =>
    intro h
    have hc : p c = true := h c (by simp)
    simp only [takeWhileLen, hc, if_true, List.length_cons]
    have := ih (fun c' hc' => h c' (by simp [hc']))
    omega

theorem takeWhileLen_append_stop (p : Char → Bool) (w : Char) (hw : p w = false) :
    ∀ xs ys : Str, takeWhileLen p (xs ++ w :: ys) = takeWhileLen p xs := by
  intro xs ys
  induction xs with
  | nil => simp [takeWhileLen, hw]
  | cons c r ih =>
    simp only [List.cons_append, takeWhileLen]
    split <;> simp [ih]

theorem takeWhileLen_head_false {p : Char → Bool} {c : Char} (hc : p c = false) (r : Str) :
    takeWhileLen p (c :: r) = 0 := by
  simp [takeWhileLen, hc]

namespace Lex

theorem pickBest_mem :
    ∀ l : List (Option Nat × RuleId), ∀ n r, pickBest l = some (n, r) → (some n, r) ∈ l := by
  intro l
  induction l with
  | nil => intro n r h; simp [pickBest] at h
  | cons e rest ih =>
    intro n r h
    match e with
    | (none, r') =>
      simp only [pickBest] at h
      exact List.mem_cons_of_mem _ (ih n r h)
    | (some m, r') =>
      simp only [pickBest] at h
      cases hrest : pickBest rest with
      | none =>
        rw [hrest] at h
        cases h
        exact List.mem_cons_self _ _
      | some p =>
        rw [hrest] at h
        cases p with
        | mk m' r'' =>
          by_cases hlt : m < m'
          · simp only [hlt, if_true] at h
            cases h
            exact List.mem_cons_of_mem _ (ih _ _ hrest)
          · simp only [hlt, if_false] at h
            cases h
            exact List.mem_cons_self _ _

theorem matchWhitespace_pos {s : Str} {n : Nat} (h : matchWhitespace s = some n) : 1 ≤ n := by
  simp only [matchWhitespace] at h
  split at h
  · exact absurd h (by simp)
  · cases h; omega

theorem matchDec_pos {s : Str} {n : Nat} (h : matchDec s = some n) : 1 ≤ n := by
  simp only [matchDec] at h
  split at h
  · exact absurd h (by simp)
  · split at h
    · split at h
      · split at h
        · exact absurd h (by simp)
        · cases h; omega
      · exact absurd h (by simp)
    · exact absurd h (by simp)

theorem matchInt_pos {s : Str} {n : Nat} (h : matchInt s = some n) : 1 ≤ n := by
  simp only [matchInt] at h
  split at h
  · exact absurd h (by simp)
  · cases h
    split <;> omega

theorem matchOp_pos {s : Str} {n : Nat} (h : matchOp s = some n) : 1 ≤ n := by
  simp only [matchOp] at h
  split at h
  · split at h
    · cases h; omega
    · split at h
      · cases h; omega
      · exact absurd h (by simp)
  · split at h
    · cases h; omega
    · exact absurd h (by simp)
  · exact absurd h (by simp)

theorem matchIdent_pos {s : Str} {n : Nat} (h : matchIdent s = some n) : 1 ≤ n := by
  simp only [matchIdent] at h
  split at h
  · split at h
    · cases h; omega
    · exact absurd h (by simp)
  · exact absurd h (by simp)

/-- No rule of the library lexer matches a zero-length prefix. -/
theorem take_token_pos {s : Str} {n : Nat} {r : RuleId} (h : take_token s = some (n, r)) :
    1 ≤ n := by
  have hmem := pickBest_mem _ _ _ h
  simp only [List.mem_cons, List.not_mem_nil, or_false, Prod.mk.injEq] at hmem
  rcases hmem with ⟨h1, _⟩ | ⟨h1, _⟩ | ⟨h1, _⟩ | ⟨h1, _⟩ | ⟨h1, _⟩
  · exact matchWhitespace_pos h1.symm
  · exact matchDec_pos h1.symm
  · exact matchInt_pos h1.symm
  · exact matchOp_pos h1.symm
  · exact matchIdent_pos h1.symm

theorem take_token_nil : take_token ([] : Str) = none := by decide

theorem take_token_ne_nil {s : Str} {p : Nat × RuleId} (h : take_token s = some p) :
    s ≠ [] := by
  intro hs
  rw [hs, take_token_nil] at h
  cases h

/-- The cursor strictly advances at every match of the library lexer. -/
theorem take_token_advances {s : Str} {n : Nat} {r : RuleId}
    (h : take_token s = some (n, r)) : (s.drop n).length < s.length := by
  have h1 := take_token_pos h
  have h2 := take_token_ne_nil h
  have h3 : 1 ≤ s.length := by
    cases s with
    | nil => exact absurd rfl h2
    | cons c r' => simp
  simp only [List.length_drop]
  omega

/-- The result of the scanning loop does not depend on the fuel, as long
as there is more fuel than characters left: the loop always exits by
itself first. -/
theorem extract_tokens_fuel_stable :
    ∀ k : Nat, ∀ remaining : Str, remaining.length ≤ k →
      ∀ fuel fuel' : Nat, remaining.length + 1 ≤ fuel → remaining.length + 1 ≤ fuel' →
        ∀ input acc, extract_tokens_fuel fuel input remaining acc =
          extract_tokens_fuel fuel' input remaining acc := by
  intro k
  induction k with
  | zero =>
    intro remaining hlen fuel fuel' hf hf' input acc
    have hnil : remaining = [] := List.length_eq_zero.mp (Nat.le_zero.mp hlen)
    subst hnil
    match fuel, hf with
    | fuel + 1, _ =>
      match fuel', hf' with
      | fuel' + 1, _ =>
        simp [extract_tokens_fuel, take_token_nil]
  | succ k ih =>
    intro remaining hlen fuel fuel' hf hf' input acc
    match fuel, hf with
    | fuel + 1, _ =>
      match fuel', hf' with
      | fuel' + 1, _ =>
        cases htt : take_token remaining with
        | none => simp only [extract_tokens_fuel, htt]
        | some p =>
          obtain ⟨n, rid⟩ := p
          have hadv := take_token_advances htt
          have hdroplen : (remaining.drop n).length ≤ k := by omega
          have hrec := ih (remaining.drop n) hdroplen fuel fuel'
            (by omega) (by omega) input
          simp only [extract_tokens_fuel, htt]
          cases happ : applyRule rid (remaining.take n) with
          | error e => rfl
          | ok token =>
            cases hlast : acc.getLast? with
            | none => exact hrec (acc ++ [token])
            | some prev =>
              dsimp only
              by_cases hsep : (!prev.isWhitespace && !token.isWhitespace) = true
              · rw [if_pos hsep, if_pos hsep]
              · rw [if_neg hsep, if_neg hsep]
                exact hrec (acc ++ [token])

end Lex

/-- A string of the identifier shape `[a-zA-Z_][a-zA-Z0-9_]*`: an
identifier-start character followed by identifier characters only. -/
def identShapedB : Str → Bool
  | [] => false
  | c :: r => isIdentStart c && r.all isIdentChar

theorem matchWhitespace_cons_none {c : Char} (hc : isWsChar c = false) (r : Str) :
    matchWhitespace (c :: r) = none := by
  simp [matchWhitespace, takeWhileLen_head_false hc]

theorem matchDec_cons_none {c : Char} (h45 : ¬c.toNat = 45) (hd : isDigitChar c = false)
    (r : Str) : matchDec (c :: r) = none := by
  simp only [matchDec, splitSign]
  simp only [if_neg h45]
  simp [takeWhileLen_head_false hd]

theorem matchInt_cons_none {c : Char} (h45 : ¬c.toNat = 45) (hd : isDigitChar c = false)
    (r : Str) : matchInt (c :: r) = none := by
  simp only [matchInt, splitSign]
  simp only [if_neg h45]
  simp [takeWhileLen_head_false hd]

namespace Lex

theorem identStart_not_ws {c : Char} (hc : isIdentStart c = true) : isWsChar c = false := by
  simp only [isIdentStart, decide_eq_true_eq] at hc
  simp only [isWsChar, decide_eq_false_iff_not]
  omega

theorem identStart_not_digit {c : Char} (hc : isIdentStart c = true) :
    isDigitChar c = false := by
  simp only [isIdentStart, decide_eq_true_eq] at hc
  simp only [isDigitChar, decide_eq_false_iff_not]
  omega

theorem identStart_not_minus {c : Char} (hc : isIdentStart c = true) : ¬c.toNat = 45 := by
  simp only [isIdentStart, decide_eq_true_eq] at hc
  omega

theorem matchOp_identStart_none {c : Char} (hc : isIdentStart c = true) (r : Str) :
    matchOp (c :: r) = none := by
  simp only [isIdentStart, decide_eq_true_eq] at hc
  have hop : isOpChar c = false := by
    simp only [isOpChar, decide_eq_false_iff_not]
    omega
  cases r with
  | nil => simp [matchOp, hop]
  | cons b r' =>
    have h2 : isTwoCharOp c b = false := by
      simp only [isTwoCharOp, Bool.or_eq_false_iff, Bool.and_eq_false_iff,
        decide_eq_false_iff_not, decide_eq_true_eq]
      omega
    simp [matchOp, hop, h2]

theorem matchIdent_cons {c : Char} (hc : isIdentStart c = true) (r : Str) :
    matchIdent (c :: r) = some (takeWhileLen isIdentChar r + 1) := by
  simp [matchIdent, hc]

/-- On an identifier-shaped string the identifier rule fires and consumes
the whole string. -/
theorem take_token_identShaped {c : Char} {r : Str} (hc : isIdentStart c = true)
    (hr : ∀ c' ∈ r, isIdentChar c' = true) :
    take_token (c :: r) = some ((c :: r).length, RuleId.identifier) := by
  have hws := matchWhitespace_cons_none (identStart_not_ws hc) r
  have hdec := matchDec_cons_none (identStart_not_minus hc) (identStart_not_digit hc) r
  have hint := matchInt_cons_none (identStart_not_minus hc) (identStart_not_digit hc) r
  have hop := matchOp_identStart_none hc r
  have hident := matchIdent_cons hc r
  have hlen : takeWhileLen isIdentChar r = r.length := takeWhileLen_all _ r hr
  simp [take_token, pickBest, hws, hdec, hint, hop, hident, hlen, List.length_cons]

/-- Running the loop on an empty suffix returns the accumulated tokens. -/
theorem extract_tokens_fuel_nil (fuel : Nat) (input : Str) (acc : List Token) :
    extract_tokens_fuel fuel input [] acc = .ok acc := by
  cases fuel with
  | zero => simp [extract_tokens_fuel, finish]
  | succ f => simp [extract_tokens_fuel, take_token_nil, finish]

/-- A string consumed in one match by a rule whose action succeeds
tokenizes to exactly that one token. -/
theorem extract_tokens_single {s : Str} {rid : RuleId} {tok : Token}
    (h1 : take_token s = some (s.length, rid))
    (h2 : applyRule rid s = .ok tok) :
    extract_tokens s = .ok [tok] := by
  have hne : s ≠ [] := take_token_ne_nil h1
  have hpos : 1 ≤ s.length := by
    cases s with
    | nil => exact absurd rfl hne
    | cons c r => simp
  have htake : s.take s.length = s := List.take_length s
  have hdrop : s.drop s.length = [] := List.drop_length s
  show extract_tokens_fuel (s.length + 1) s s [] = .ok [tok]
  simp only [extract_tokens_fuel, h1, htake, h2, List.getLast?_nil, hdrop,
    List.nil_append]
  exact extract_tokens_fuel_nil s.length s [tok]

end Lex

/-! ## Lemmas for the concatenation invariant and the round trip -/

theorem splitSign_append {xs : Str} (hne : xs ≠ []) (z : Str) :
    splitSign (xs ++ z) = ((splitSign xs).1, (splitSign xs).2 ++ z) := by
  cases xs with
  | nil => exact absurd rfl hne
  | cons c r =>
    simp only [List.cons_append, splitSign]
    split <;> simp

theorem matchDec_append {xs : Str} (hne : xs ≠ []) {w : Char}
    (hwd : isDigitChar w = false) (hwdot : ¬w.toNat = 46) (ys : Str) :
    matchDec (xs ++ w :: ys) = matchDec xs := by
  simp only [matchDec, splitSign_append hne]
  have hstop := takeWhileLen_append_stop isDigitChar w hwd (splitSign xs).2 ys
  rw [hstop]
  by_cases h1 : takeWhileLen isDigitChar (splitSign xs).2 = 0
  · simp [h1]
  · simp only [h1, if_false]
    have hle := takeWhileLen_le isDigitChar (splitSign xs).2
    rw [List.drop_append_eq_append_drop]
    have hz : takeWhileLen isDigitChar (splitSign xs).2 - (splitSign xs).2.length = 0 := by
      omega
    rw [hz, List.drop_zero]
    cases hdrop : (splitSign xs).2.drop (takeWhileLen isDigitChar (splitSign xs).2) with
    | nil =>
      simp only [List.nil_append]
      rw [if_neg hwdot]
    | cons c1 r2 =>
      simp only [List.cons_append]
      by_cases hc1 : c1.toNat = 46
      · simp only [hc1, if_true, if_pos]
        rw [takeWhileLen_append_stop isDigitChar w hwd r2 ys]
      · rw [if_neg hc1, if_neg hc1]

theorem matchInt_append {xs : Str} (hne : xs ≠ []) {w : Char}
    (hwd : isDigitChar w = false) (ys : Str) :
    matchInt (xs ++ w :: ys) = matchInt xs := by
  simp only [matchInt, splitSign_append hne]
  rw [takeWhileLen_append_stop isDigitChar w hwd (splitSign xs).2 ys]

namespace Lex

theorem ws_not_digit {w : Char} (hw : isWsChar w = true) : isDigitChar w = false := by
  simp only [isWsChar, decide_eq_true_eq] at hw
  simp only [isDigitChar, decide_eq_false_iff_not]
  omega

theorem ws_not_dot {w : Char} (hw : isWsChar w = true) : ¬w.toNat = 46 := by
  simp only [isWsChar, decide_eq_true_eq] at hw
  omega

theorem ws_not_minus {w : Char} (hw : isWsChar w = true) : ¬w.toNat = 45 := by
  simp only [isWsChar, decide_eq_true_eq] at hw
  omega

theorem ws_not_identChar {w : Char} (hw : isWsChar w = true) : isIdentChar w = false := by
  simp only [isWsChar, decide_eq_true_eq] at hw
  simp only [isIdentChar, isIdentStart, isDigitChar, Bool.or_eq_false_iff,
    decide_eq_false_iff_not]
  omega

theorem ws_not_identStart {w : Char} (hw : isWsChar w = true) : isIdentStart w = false := by
  simp only [isWsChar, decide_eq_true_eq] at hw
  simp only [isIdentStart, decide_eq_false_iff_not]
  omega

theorem ws_not_twoCharOp_snd {a w : Char} (hw : isWsChar w = true) :
    isTwoCharOp a w = false := by
  simp only [isWsChar, decide_eq_true_eq] at hw
  simp only [isTwoCharOp, Bool.or_eq_false_iff, Bool.and_eq_false_iff,
    decide_eq_false_iff_not, decide_eq_true_eq]
  omega

theorem matchOp_ws_none {w : Char} (hw : isWsChar w = true) (t : Str) :
    matchOp (w :: t) = none := by
  simp only [isWsChar, decide_eq_true_eq] at hw
  have hop : isOpChar w = false := by
    simp only [isOpChar, decide_eq_false_iff_not]
    omega
  cases t with
  | nil => simp [matchOp, hop]
  | cons b t' =>
    have h2 : isTwoCharOp w b = false := by
      simp only [isTwoCharOp, Bool.or_eq_false_iff, Bool.and_eq_false_iff,
        decide_eq_false_iff_not, decide_eq_true_eq]
      omega
    simp [matchOp, hop, h2]

theorem matchOp_append {c : Char} (r : Str) {w : Char} (hw : isWsChar w = true) (ys : Str) :
    matchOp ((c :: r) ++ w :: ys) = matchOp (c :: r) := by
  cases r with
  | nil =>
    simp only [List.cons_append, List.nil_append, matchOp,
      ws_not_twoCharOp_snd hw, Bool.false_eq_true, if_false]
  | cons b r' => simp only [List.cons_append, matchOp]

theorem matchIdent_append {c : Char} (r : Str) {w : Char} (hw : isIdentChar w = false)
    (ys : Str) : matchIdent ((c :: r) ++ w :: ys) = matchIdent (c :: r) := by
  simp only [List.cons_append, matchIdent]
  rw [takeWhileLen_append_stop isIdentChar w hw r ys]

/-- Appending a whitespace-headed suffix to a string whose head is not
whitespace does not change what `take_token` matches, as long as the
match does not reach the appended part: the one step of the lexer is
stable under extending the input past a whitespace boundary. -/
theorem take_token_append_ws {c : Char} (r : Str) (hc : isWsChar c = false)
    {w : Char} (hw : isWsChar w = true) (ys : Str) :
    take_token ((c :: r) ++ w :: ys) = take_token (c :: r) := by
  have hne : (c :: r : Str) ≠ [] := by simp
  have hws : matchWhitespace ((c :: r) ++ w :: ys) = matchWhitespace (c :: r) := by
    rw [List.cons_append, matchWhitespace_cons_none hc, matchWhitespace_cons_none hc]
  simp only [take_token, hws, matchDec_append hne (ws_not_digit hw) (ws_not_dot hw) ys,
    matchInt_append hne (ws_not_digit hw) ys, matchOp_append r hw ys,
    matchIdent_append r (ws_not_identChar hw) ys]

/-- On a whitespace run followed by a non-whitespace character, the
whitespace rule fires and consumes exactly the run. -/
theorem take_token_ws_run {w : Char} {wr : Str} (hw : ∀ c ∈ w :: wr, isWsChar c = true)
    {d : Char} (zs : Str) (hd : isWsChar d = false) :
    take_token ((w :: wr) ++ d :: zs) = some ((w :: wr).length, RuleId.whitespace) := by
  have hw0 : isWsChar w = true := hw w (by simp)
  have hrun : takeWhileLen isWsChar (w :: (wr ++ d :: zs)) = wr.length + 1 := by
    have h1 : takeWhileLen isWsChar ((w :: wr) ++ d :: zs) = takeWhileLen isWsChar (w :: wr) :=
      takeWhileLen_append_stop isWsChar d hd (w :: wr) zs
    rw [List.cons_append] at h1
    rw [h1, takeWhileLen_all isWsChar (w :: wr) hw]
    simp
  have hmw : matchWhitespace (w :: (wr ++ d :: zs)) = some (wr.length + 1) := by
    simp [matchWhitespace, hrun]
  have hdec : matchDec (w :: (wr ++ d :: zs)) = none :=
    matchDec_cons_none (ws_not_minus hw0) (ws_not_digit hw0) _
  have hint : matchInt (w :: (wr ++ d :: zs)) = none :=
    matchInt_cons_none (ws_not_minus hw0) (ws_not_digit hw0) _
  have hop : matchOp (w :: (wr ++ d :: zs)) = none := matchOp_ws_none hw0 _
  have hident : matchIdent (w :: (wr ++ d :: zs)) = none := by
    simp [matchIdent, ws_not_identStart hw0]
  show take_token (w :: (wr ++ d :: zs)) = some (wr.length + 1, RuleId.whitespace)
  simp [take_token, hmw, hdec, hint, hop, hident, pickBest]

/-- A complete non-whitespace token string: one the lexer consumes
entirely in a single match whose action succeeds with a non-Whitespace
token. -/
def IsCompleteToken (t : Str) : Prop :=
  ∃ rid tok, take_token t = some (t.length, rid) ∧
    applyRule rid t = .ok tok ∧ tok.isWhitespace = false

/-- A complete non-whitespace token string starts with a non-whitespace
character. -/
theorem completeToken_head {t : Str} (h : IsCompleteToken t) :
    ∃ c r, t = c :: r ∧ isWsChar c = false := by
  obtain ⟨rid, tok, htt, happ, hnws⟩ := h
  have hne := take_token_ne_nil htt
  cases t with
  | nil => exact absurd rfl hne
  | cons c r =>
    refine ⟨c, r, rfl, ?_⟩
    by_contra hcon
    have hc : isWsChar c = true := by
      cases hval : isWsChar c
      · exact absurd hval hcon
      · rfl
    have hdec := matchDec_cons_none (ws_not_minus hc) (ws_not_digit hc) r
    have hint := matchInt_cons_none (ws_not_minus hc) (ws_not_digit hc) r
    have hop := matchOp_ws_none hc r
    have hident : matchIdent (c :: r) = none := by
      simp [matchIdent, ws_not_identStart hc]
    have hrid : rid = RuleId.whitespace := by
      simp only [take_token, hdec, hint, hop, hident, pickBest] at htt
      cases hmw : matchWhitespace (c :: r) with
      | none => rw [hmw] at htt; cases htt
      | some k => rw [hmw] at htt; cases htt; rfl
    rw [hrid] at happ
    simp only [applyRule] at happ
    cases happ
    simp [Token.isWhitespace] at hnws

/-- The concatenation of the substrings matched in the first `fuel`
iterations of the loop, followed by the suffix left unconsumed at that
point, is the original input: no character is skipped or duplicated. -/
theorem scanPieces_concat : ∀ (fuel : Nat) (s : Str),
    (scanPieces fuel s).flatten ++ scanRemaining fuel s = s := by
  intro fuel
  induction fuel with
  | zero => intro s; simp [scanPieces, scanRemaining]
  | succ f ih =>
    intro s
    cases htt : take_token s with
    | none => simp [scanPieces, scanRemaining, htt]
    | some p =>
      obtain ⟨n, rid⟩ := p
      simp only [scanPieces, scanRemaining, htt, List.flatten_cons, List.append_assoc, ih]
      exact List.take_append_drop n s

/-- Inputs composed only of complete non-whitespace token strings
separated by single runs of lexer whitespace; the first component lists
the pieces: token and separator strings, alternating, starting and
ending with a token. -/
inductive WsSeparatedInput : List Str → Str → Prop
  | single (t : Str) : IsCompleteToken t → WsSeparatedInput [t] t
  | sep (t w s : Str) (ps : List Str) : IsCompleteToken t → w ≠ [] →
      (∀ c ∈ w, isWsChar c = true) → WsSeparatedInput ps s →
      WsSeparatedInput (t :: w :: ps) (t ++ (w ++ s))

theorem wsSeparated_flatten {ps : List Str} {s : Str} (h : WsSeparatedInput ps s) :
    ps.flatten = s := by
  induction h with
  | single t ht => simp
  | sep t w s' ps' ht hwne hws hrest ih => simp [ih]

theorem wsSeparated_head {ps : List Str} {s : Str} (h : WsSeparatedInput ps s) :
    ∃ c r, s = c :: r ∧ isWsChar c = false := by
  cases h with
  | single t ht => exact completeToken_head ht
  | sep t w s' ps' ht hwne hws hrest =>
    obtain ⟨c, r, rfl, hc⟩ := completeToken_head ht
    exact ⟨c, r ++ (w ++ s'), by simp, hc⟩

/-- On a whitespace-separated input the loop consumes every piece and
returns the accumulated tokens (the accumulator is empty or ends with a
Whitespace token, so the separator check always passes). -/
theorem extract_roundtrip_aux {ps : List Str} {s : Str} (h : WsSeparatedInput ps s) :
    ∀ (fuel : Nat), s.length + 1 ≤ fuel → ∀ (input : Str) (acc : List Token),
      (acc = [] ∨ acc.getLast? = some Token.Whitespace) →
      ∃ toks, extract_tokens_fuel fuel input s acc = .ok (acc ++ toks) := by
  induction h with
  | single t ht =>
    intro fuel hf input acc hacc
    obtain ⟨rid, tok, htt, happ, hnws⟩ := ht
    match fuel, hf with
    | f + 1, _ =>
      refine ⟨[tok], ?_⟩
      simp only [extract_tokens_fuel, htt, List.take_length, happ, List.drop_length]
      rcases hacc with hnil | hlast
      · subst hnil
        simp only [List.getLast?_nil]
        exact extract_tokens_fuel_nil f input [tok]
      · rw [hlast]
        dsimp only
        rw [if_neg (by simp [Token.isWhitespace])]
        exact extract_tokens_fuel_nil f input (acc ++ [tok])
  | sep t w s' ps' ht hwne hws hrest ih =>
    intro fuel hf input acc hacc
    obtain ⟨rid, tok, htt, happ, hnws⟩ := ht
    have hpos : 1 ≤ t.length := take_token_pos htt
    obtain ⟨c, r, hteq, hc⟩ := completeToken_head ⟨rid, tok, htt, happ, hnws⟩
    obtain ⟨w0, wr, hweq⟩ : ∃ w0 wr, w = w0 :: wr := by
      cases w with
      | nil => exact absurd rfl hwne
      | cons w0 wr => exact ⟨w0, wr, rfl⟩
    obtain ⟨d, zs, hseq, hd⟩ := wsSeparated_head hrest
    have hwpos : 1 ≤ w.length := by rw [hweq]; simp
    have hlens : (t ++ (w ++ s')).length = t.length + (w.length + s'.length) := by
      simp [List.length_append]
    match fuel, hf with
    | f + 1, hf =>
      have htt1 : take_token (t ++ (w ++ s')) = some (t.length, rid) := by
        have e1 : t ++ (w ++ s') = (c :: r) ++ (w0 :: (wr ++ s')) := by
          rw [hteq, hweq]; simp
        have hw0 : isWsChar w0 = true := hws w0 (by rw [hweq]; simp)
        rw [e1, take_token_append_ws r hc hw0 (wr ++ s'), ← hteq, htt]
      have hstep1 : extract_tokens_fuel (f + 1) input (t ++ (w ++ s')) acc =
          extract_tokens_fuel f input (w ++ s') (acc ++ [tok]) := by
        simp only [extract_tokens_fuel, htt1, List.take_left, happ, List.drop_left]
        rcases hacc with hnil | hlast
        · subst hnil
          simp only [List.getLast?_nil]
        · rw [hlast]
          dsimp only
          rw [if_neg (by simp [Token.isWhitespace])]
      have hf2 : (w ++ s').length + 1 ≤ f := by
        rw [hlens] at hf
        simp only [List.length_append]
        omega
      match f, hf2 with
      | f' + 1, hf2 =>
        have htt2 : take_token (w ++ s') = some (w.length, RuleId.whitespace) := by
          have hws' : ∀ c' ∈ w0 :: wr, isWsChar c' = true := by
            rw [hweq] at hws; exact hws
          rw [hweq, hseq]
          exact take_token_ws_run hws' zs hd
        have hstep2 : extract_tokens_fuel (f' + 1) input (w ++ s') (acc ++ [tok]) =
            extract_tokens_fuel f' input s' ((acc ++ [tok]) ++ [Token.Whitespace]) := by
          simp only [extract_tokens_fuel, htt2, List.take_left, applyRule, List.drop_left,
            List.getLast?_concat]
          rw [if_neg (by simp [Token.isWhitespace])]
        have hf3 : s'.length + 1 ≤ f' := by
          simp only [List.length_append] at hf2
          omega
        obtain ⟨toks', hrec⟩ := ih f' hf3 input ((acc ++ [tok]) ++ [Token.Whitespace])
          (Or.inr (List.getLast?_concat _))
        refine ⟨[tok, Token.Whitespace] ++ toks', ?_⟩
        rw [hstep1, hstep2, hrec]
        simp

/-- On a whitespace-separated input the matched substrings of a full run
of the loop are exactly the pieces. -/
theorem scanPieces_roundtrip_aux {ps : List Str} {s : Str} (h : WsSeparatedInput ps s) :
    ∀ (fuel : Nat), s.length + 1 ≤ fuel → scanPieces fuel s = ps := by
  induction h with
  | single t ht =>
    intro fuel hf
    obtain ⟨rid, tok, htt, happ, hnws⟩ := ht
    match fuel, hf with
    | f + 1, _ =>
      simp only [scanPieces, htt, List.take_length, List.drop_length]
      cases f with
      | zero => simp [scanPieces]
      | succ f' => simp [scanPieces, take_token_nil]
  | sep t w s' ps' ht hwne hws hrest ih =>
    intro fuel hf
    obtain ⟨rid, tok, htt, happ, hnws⟩ := ht
    have hpos : 1 ≤ t.length := take_token_pos htt
    obtain ⟨c, r, hteq, hc⟩ := completeToken_head ⟨rid, tok, htt, happ, hnws⟩
    obtain ⟨w0, wr, hweq⟩ : ∃ w0 wr, w = w0 :: wr := by
      cases w with
      | nil => exact absurd rfl hwne
      | cons w0 wr => exact ⟨w0, wr, rfl⟩
    obtain ⟨d, zs, hseq, hd⟩ := wsSeparated_head hrest
    have hwpos : 1 ≤ w.length := by rw [hweq]; simp
    have hlens : (t ++ (w ++ s')).length = t.length + (w.length + s'.length) := by
      simp [List.length_append]
    match fuel, hf with
    | f + 1, hf =>
      have htt1 : take_token (t ++ (w ++ s')) = some (t.length, rid) := by
        have e1 : t ++ (w ++ s') = (c :: r) ++ (w0 :: (wr ++ s')) := by
          rw [hteq, hweq]; simp
        have hw0 : isWsChar w0 = true := hws w0 (by rw [hweq]; simp)
        rw [e1, take_token_append_ws r hc hw0 (wr ++ s'), ← hteq, htt]
      have hf2 : (w ++ s').length + 1 ≤ f := by
        rw [hlens] at hf
        simp only [List.length_append]
        omega
      simp only [scanPieces, htt1, List.take_left, List.drop_left]
      match f, hf2 with
      | f' + 1, hf2 =>
        have htt2 : take_token (w ++ s') = some (w.length, RuleId.whitespace) := by
          have hws' : ∀ c' ∈ w0 :: wr, isWsChar c' = true := by
            rw [hweq] at hws; exact hws
          rw [hweq, hseq]
          exact take_token_ws_run hws' zs hd
        have hf3 : s'.length + 1 ≤ f' := by
          simp only [List.length_append] at hf2
          omega
        simp only [scanPieces, htt2, List.take_left, List.drop_left]
        rw [ih f' hf3]

end Lex

/-! ## Claims -/

/-- C1: whenever the scanner produces a new non-Whitespace token whose
immediately preceding emitted token exists and is also non-Whitespace,
tokenization fails immediately with the missing-separator error carrying
the previous and new tokens; a whitespace token (in either position)
never triggers the check and the loop continues; in particular the input
"42+3" fails with the missing-separator error between Integer 42 and
Operator Plus. -/
theorem claim_C1_missing_separator_hard_stop :
    (∀ (fuel : Nat) (input remaining : Str) (tokens : List Lex.Token)
        (prev : Lex.Token) (n : Nat) (rid : Lex.RuleId) (token : Lex.Token),
      tokens.getLast? = some prev →
      prev.isWhitespace = false →
      Lex.take_token remaining = some (n, rid) →
      Lex.applyRule rid (remaining.take n) = .ok token →
      token.isWhitespace = false →
      Lex.extract_tokens_fuel (fuel + 1) input remaining tokens =
        .error (.missingSeparator prev token)) ∧
    (∀ (fuel : Nat) (input remaining : Str) (tokens : List Lex.Token)
        (n : Nat) (rid : Lex.RuleId) (token : Lex.Token),
      Lex.take_token remaining = some (n, rid) →
      Lex.applyRule rid (remaining.take n) = .ok token →
      token.isWhitespace = true →
      Lex.extract_tokens_fuel (fuel + 1) input remaining tokens =
        Lex.extract_tokens_fuel fuel input (remaining.drop n) (tokens ++ [token])) ∧
    Lex.extract_tokens ("42+3".data) =
      .error (.missingSeparator (.Integer 42) (.Operator .Plus)) := by
  refine ⟨?_, ?_, by decide⟩
  · intro fuel input remaining tokens prev n rid token hlast hprev htt happ htok
    simp only [Lex.extract_tokens_fuel, htt, happ, hlast]
    rw [if_pos (by simp [hprev, htok])]
  · intro fuel input remaining tokens n rid token htt happ htok
    simp only [Lex.extract_tokens_fuel, htt, happ]
    cases hlast : tokens.getLast? with
    | none => rfl
    | some prev =>
      dsimp only
      rw [if_neg (by simp [htok])]

theorem claim_C1_witness :
    Lex.extract_tokens_fuel 3 ("42+3".data) ("+3".data) [Lex.Token.Integer 42] =
      .error (.missingSeparator (.Integer 42) (.Operator .Plus)) :=
  claim_C1_missing_separator_hard_stop.1 2 ("42+3".data) ("+3".data)
    [Lex.Token.Integer 42] (.Integer 42) 1 Lex.RuleId.operator (.Operator .Plus)
    (by decide) (by decide) (by decide) (by decide) (by decide)

/-- C2: tokenizing "fn myFunc 42 + 3.14 while" succeeds, and the token
sequence with Whitespace tokens removed is exactly Keyword Fn,
Identifier "myFunc", Integer 42, Operator Plus, Decimal 3.14,
Keyword While, in that order. -/
theorem claim_C2_scenario_fn_myFunc :
    Lex.extract_tokens ("fn myFunc 42 + 3.14 while".data) =
      .ok [.Keyword .Fn, .Whitespace, .Identifier ("myFunc".data), .Whitespace,
        .Integer 42, .Whitespace, .Operator .Plus, .Whitespace,
        .Decimal (3.14 : Rat), .Whitespace, .Keyword .While] ∧
    [Lex.Token.Keyword .Fn, .Whitespace, .Identifier ("myFunc".data), .Whitespace,
        .Integer 42, .Whitespace, .Operator .Plus, .Whitespace,
        .Decimal (3.14 : Rat), .Whitespace, .Keyword .While].filter
        (fun t => !t.isWhitespace) =
      [Lex.Token.Keyword .Fn, .Identifier ("myFunc".data), .Integer 42,
        .Operator .Plus, .Decimal (3.14 : Rat), .Keyword .While] := by
  have h : (3.14 : Rat) = mkRat 157 50 := by norm_num
  rw [h]
  exact ⟨by decide, by decide⟩

/-- C3: the code does not report an overflow error value; on an integer
literal exceeding the i64 range (here 2^63) the unchecked
`tok.parse().unwrap()` inside the integer rule's action aborts, which the
embedding records as the `numericParsePanic` outcome: `parseI64` fails
on the literal and tokenization ends in the panic, not in a reported
`NumericLiteralOverflow` value. -/
theorem claim_C3_overflow_panics :
    parseI64 ("9223372036854775808".data) = none ∧
    Lex.extract_tokens ("9223372036854775808".data) =
      .error (.numericParsePanic ("9223372036854775808".data)) := by
  exact ⟨by decide, by decide⟩

/-- C4 (amended): when the scanning loop stops and the unconsumed suffix
is non-empty after trimming whitespace in the sense of Rust `str::trim`
(Unicode White_Space, not merely ASCII whitespace), tokenization fails
with the unrecognized-token error at offset `input.length -
remaining.length`; in particular "print $x + 3" fails at offset 6, the
position of the dollar sign. -/
theorem claim_C4_unrecognized_trailing :
    (∀ (fuel : Nat) (input remaining : Str) (tokens : List Lex.Token),
      Lex.take_token remaining = none →
      remaining.all isTrimWs = false →
      Lex.extract_tokens_fuel (fuel + 1) input remaining tokens =
        .error (.unrecognizedToken (input.length - remaining.length))) ∧
    Lex.extract_tokens ("print $x + 3".data) = .error (.unrecognizedToken 6) := by
  refine ⟨?_, by decide⟩
  intro fuel input remaining tokens htt hws
  simp only [Lex.extract_tokens_fuel, htt, Lex.finish, hws]
  rw [if_neg (by simp [hws])]

theorem claim_C4_witness :
    Lex.extract_tokens_fuel 4 ("print $x + 3".data) ("$x + 3".data)
      [Lex.Token.Identifier ("print".data), .Whitespace] =
      .error (.unrecognizedToken 6) :=
  claim_C4_unrecognized_trailing.1 3 ("print $x + 3".data) ("$x + 3".data)
    [Lex.Token.Identifier ("print".data), .Whitespace] (by decide) (by decide)

/-- C4 as literally stated is false: on the input consisting of the
single character U+00A0 (no-break space) the loop stops at once with the
whole input as unconsumed suffix, that suffix is non-empty after
trimming ASCII whitespace, yet `extract_tokens` returns an empty token
list instead of an unrecognized-token error, because Rust's `str::trim`
also trims non-ASCII Unicode whitespace such as U+00A0. -/
theorem claim_C4_counterexample :
    Lex.take_token [Char.ofNat 160] = none ∧
    [Char.ofNat 160].dropWhile isAsciiWs ≠ [] ∧
    Lex.extract_tokens [Char.ofNat 160] = .ok [] := by
  exact ⟨by decide, by decide, by decide⟩

/-- C5: "==" tokenizes as the single token Operator EqualEqual and "<="
as the single token Operator LessEqual; the two-character spellings win
over their one-character prefixes. -/
theorem claim_C5_longest_operator_match :
    Lex.extract_tokens ("==".data) = .ok [.Operator .EqualEqual] ∧
    Lex.extract_tokens ("<=".data) = .ok [.Operator .LessEqual] := by
  exact ⟨by decide, by decide⟩

/-- C6: each of the five reserved keyword strings of the library variant
tokenizes as the corresponding Keyword token (never as an Identifier),
and every other identifier-shaped string — head in `[a-zA-Z_]`, tail in
`[a-zA-Z0-9_]`, not a key of the KEYWORDS map — tokenizes as the single
Identifier token carrying that string. -/
theorem claim_C6_keyword_shadowing :
    Lex.extract_tokens ("while".data) = .ok [.Keyword .While] ∧
    Lex.extract_tokens ("for".data) = .ok [.Keyword .For] ∧
    Lex.extract_tokens ("fn".data) = .ok [.Keyword .Fn] ∧
    Lex.extract_tokens ("if".data) = .ok [.Keyword .If] ∧
    Lex.extract_tokens ("else".data) = .ok [.Keyword .Else] ∧
    (∀ s : Str, identShapedB s = true → Lex.parse_keyword s = none →
      Lex.extract_tokens s = .ok [.Identifier s]) := by
  refine ⟨by decide, by decide, by decide, by decide, by decide, ?_⟩
  intro s hshape hkw
  cases s with
  | nil => exact absurd hshape (by decide)
  | cons c r =>
    simp only [identShapedB, Bool.and_eq_true, List.all_eq_true] at hshape
    obtain ⟨hc, hr⟩ := hshape
    have htt := Lex.take_token_identShaped hc hr
    have happ : Lex.applyRule Lex.RuleId.identifier (c :: r) = .ok (.Identifier (c :: r)) := by
      simp [Lex.applyRule, hkw]
    exact Lex.extract_tokens_single htt happ

theorem claim_C6_witness :
    Lex.extract_tokens ("myFunc".data) = .ok [.Identifier ("myFunc".data)] :=
  claim_C6_keyword_shadowing.2.2.2.2.2 ("myFunc".data) (by decide) (by decide)

/-- C7: for every input and every number of loop iterations, the
concatenation of the substrings matched so far followed by the
unconsumed suffix is exactly the input (no character skipped or
duplicated); and for every input composed only of complete
non-whitespace token strings separated by whitespace runs, tokenization
succeeds, the matched substrings are exactly those pieces, and their
concatenation is the entire input. -/
theorem claim_C7_concat_and_roundtrip :
    (∀ (fuel : Nat) (s : Str),
      (Lex.scanPieces fuel s).flatten ++ Lex.scanRemaining fuel s = s) ∧
    (∀ (ps : List Str) (input : Str), Lex.WsSeparatedInput ps input →
      (∃ toks, Lex.extract_tokens input = .ok toks) ∧
      Lex.scanPieces (input.length + 1) input = ps ∧
      ps.flatten = input) := by
  refine ⟨Lex.scanPieces_concat, ?_⟩
  intro ps input h
  refine ⟨?_, Lex.scanPieces_roundtrip_aux h _ le_rfl, Lex.wsSeparated_flatten h⟩
  obtain ⟨toks, heq⟩ :=
    Lex.extract_roundtrip_aux h (input.length + 1) le_rfl input [] (Or.inl rfl)
  exact ⟨[] ++ toks, heq⟩

theorem claim_C7_witness :
    Lex.WsSeparatedInput ["1".data, " ".data, "+".data] ("1 +".data) ∧
    ((∃ toks, Lex.extract_tokens ("1 +".data) = .ok toks) ∧
      Lex.scanPieces (("1 +".data).length + 1) ("1 +".data) =
        ["1".data, " ".data, "+".data] ∧
      (["1".data, " ".data, "+".data] : List Str).flatten = "1 +".data) := by
  have hsep : Lex.WsSeparatedInput ["1".data, " ".data, "+".data] ("1 +".data) :=
    Lex.WsSeparatedInput.sep ("1".data) (" ".data) ("+".data) ["+".data]
      ⟨Lex.RuleId.integer, .Integer 1, by decide, by decide, by decide⟩
      (by decide) (by decide)
      (Lex.WsSeparatedInput.single ("+".data)
        ⟨Lex.RuleId.operator, .Operator .Plus, by decide, by decide, by decide⟩)
  exact ⟨hsep, claim_C7_concat_and_roundtrip.2 ["1".data, " ".data, "+".data]
    ("1 +".data) hsep⟩

/-- C8: tokenization terminates on every input: no rule matches a
zero-length prefix and every match strictly shrinks the unconsumed
suffix, so `input.length + 1` units of fuel are always enough — the
fuelled loop computes `extract_tokens input` for every sufficient fuel
value. -/
theorem claim_C8_termination :
    (∀ (s : Str) (n : Nat) (rid : Lex.RuleId),
      Lex.take_token s = some (n, rid) → 1 ≤ n ∧ (s.drop n).length < s.length) ∧
    (∀ (input : Str) (fuel : Nat), input.length + 1 ≤ fuel →
      Lex.extract_tokens_fuel fuel input input [] = Lex.extract_tokens input) := by
  constructor
  · intro s n rid h
    exact ⟨Lex.take_token_pos h, Lex.take_token_advances h⟩
  · intro input fuel hf
    have := Lex.extract_tokens_fuel_stable input.length input le_rfl fuel
      (input.length + 1) hf le_rfl input []
    simpa [Lex.extract_tokens] using this

theorem claim_C8_witness :
    Lex.extract_tokens_fuel 9 ("1 + 2".data) ("1 + 2".data) [] =
      Lex.extract_tokens ("1 + 2".data) :=
  claim_C8_termination.2 ("1 + 2".data) 9 (by decide)

/-- C9: the operator rule's character class contains the backslash, so
the rule matches the one-character input consisting of a backslash, but
the OPERATORS map has no backslash entry, so `parse_operator` returns
none and the action reaches the unknown-operator panic branch: the
pattern and the classifier table have drifted and the branch is
reachable through `extract_tokens`. -/
theorem claim_C9_backslash_drift :
    Lex.matchOp ("\\".data) = some 1 ∧
    Lex.parse_operator ("\\".data) = none ∧
    Lex.extract_tokens ("\\".data) = .error (.unknownOperatorPanic ("\\".data)) := by
  exact ⟨by decide, by decide, by decide⟩

/-- C10: the standalone-entry `extract_tokens` of main.rs performs no
end-of-input check: whenever the loop stops because no rule matches, it
returns the tokens collected so far, whatever the unconsumed suffix; on
"print $x + 3" it returns Identifier "print" and a Whitespace token and
silently discards "$x + 3", while the library variant reports the
unrecognized-token error at offset 6. -/
theorem claim_C10_main_discards_trailing :
    (∀ (fuel : Nat) (remaining : Str) (tokens : List LexMain.Token),
      LexMain.take_token remaining = none →
      LexMain.extract_tokens_fuel (fuel + 1) remaining tokens = .ok tokens) ∧
    LexMain.extract_tokens ("print $x + 3".data) =
      .ok [.Identifier ("print".data), .Whitespace] ∧
    Lex.extract_tokens ("print $x + 3".data) = .error (.unrecognizedToken 6) := by
  refine ⟨?_, by decide, by decide⟩
  intro fuel remaining tokens htt
  simp only [LexMain.extract_tokens_fuel, htt]

theorem claim_C10_witness :
    LexMain.extract_tokens_fuel 4 ("$x + 3".data)
      [LexMain.Token.Identifier ("print".data), .Whitespace] =
      .ok [LexMain.Token.Identifier ("print".data), .Whitespace] :=
  claim_C10_main_discards_trailing.1 3 ("$x + 3".data)
    [LexMain.Token.Identifier ("print".data), .Whitespace] (by decide)

